import Mathlib

/-!
Verification of the soldier-carpool backend (seat ledger and match scorer).

The seat ledger (`create_ride`, `create_ride_request`, `update_request_status`)
is embedded as pure functions over an explicit `Store`; the persistence
collaborator's operations become association-list lookups/updates.  The match
scorer (`score_ride`, `suggest_rides`) is embedded as a pure function of the
soldier, the candidate rides and the current time, with money and scores as
rationals and timestamps as integer seconds.
-/

namespace Carpool

/-- A ride record as stored, restricted to the fields the seat ledger touches.
`seats_total` and `seats_available` are `Int` because the HTTP input model
(`RideIn`) puts no range constraint on them. -/
structure Ride where
  driver_id : Nat
  seats_total : Int
  seats_available : Int
deriving Repr, DecidableEq

/-- A ride-join request record as stored.  `status` is a plain string,
as in the code. -/
structure RideRequest where
  ride_id : Nat
  passenger_id : Nat
  seats : Int
  status : String
deriving Repr, DecidableEq

/-- Error taxonomy: HTTP 400 is `invalidArgument`, HTTP 404 is `notFound`. -/
inductive ApiError where
  | invalidArgument
  | notFound
deriving Repr, DecidableEq

/-- The persistence store: soldier ids, and the ride / riderequest collections
as association lists from generated id to record.  `nextId` generates fresh
ids. -/
structure Store where
  soldiers : List Nat
  rides : List (Nat × Ride)
  requests : List (Nat × RideRequest)
  nextId : Nat
deriving Repr, DecidableEq

/-- `FindByID`: point lookup by id in a collection. -/
def findById (l : List (Nat × α)) (i : Nat) : Option α :=
  (l.find? (fun p => p.1 == i)).map (·.2)

/-- `IncrementField`/`UpdateField`: update the record stored under id `i`. -/
def updateById (l : List (Nat × α)) (i : Nat) (f : α → α) : List (Nat × α) :=
  l.map (fun p => if p.1 == i then (p.1, f p.2) else p)

/-- POST /rides: checks the driver exists, then inserts the ride with
`seats_available` initialized to `seats_total`.  Note: as in `RideIn`,
no range check on `seats_total`. -/
def create_ride (s : Store) (driver_id : Nat) (seats_total : Int) :
    Except ApiError (Store × Nat) :=
  if s.soldiers.contains driver_id then
    let ride : Ride := ⟨driver_id, seats_total, seats_total⟩
    .ok ({ s with rides := s.rides ++ [(s.nextId, ride)], nextId := s.nextId + 1 }, s.nextId)
  else
    .error .notFound

/-- POST /ride-requests (RequestSeats): validates ride and passenger exist,
`seats ≥ 1`, and advisory availability; inserts the request as "pending". -/
def create_ride_request (s : Store) (ride_id passenger_id : Nat) (seats : Int) :
    Except ApiError (Store × Nat) :=
  match findById s.rides ride_id with
  | none => .error .notFound
  | some ride =>
    if s.soldiers.contains passenger_id then
      if seats < 1 then .error .invalidArgument
      else if ride.seats_available < seats then .error .invalidArgument
      else
        let req : RideRequest := ⟨ride_id, passenger_id, seats, "pending"⟩
        .ok ({ s with requests := s.requests ++ [(s.nextId, req)], nextId := s.nextId + 1 },
             s.nextId)
    else
      .error .notFound

/-- The allowed request statuses. -/
def validStatuses : List String := ["pending", "accepted", "rejected", "cancelled"]

/-- The "If accepting, decrease available seats" block of SetStatus: on a
`!accepted → accepted` transition, look the ride up fresh, re-check
availability and decrement; otherwise leave the store alone. -/
def acceptAdjust (s : Store) (req : RideRequest) (newStatus : String) :
    Except ApiError Store :=
  if req.status != "accepted" && newStatus == "accepted" then
    match findById s.rides req.ride_id with
    | none => .error .notFound
    | some ride =>
      if ride.seats_available < req.seats then .error .invalidArgument
      else
        let rides1 := updateById s.rides req.ride_id
          (fun r => { r with seats_available := r.seats_available - req.seats })
        .ok { s with rides := rides1 }
  else .ok s

/-- The "If moving from accepted back to other status, return seats" block of
SetStatus.  `req` is the request as fetched before any adjustment. -/
def releaseAdjust (s : Store) (req : RideRequest) (newStatus : String) : Store :=
  if req.status == "accepted" && (newStatus == "rejected" || newStatus == "cancelled") then
    let rides2 := updateById s.rides req.ride_id
      (fun r => { r with seats_available := r.seats_available + req.seats })
    { s with rides := rides2 }
  else s

/-- POST /ride-requests/{id}/status (SetStatus): validates the status string,
looks up the request, applies the seat-ledger side effects on the parent ride
(decrement on `!accepted → accepted` after a fresh availability check,
increment on `accepted → rejected/cancelled`), then persists the new status. -/
def update_request_status (s : Store) (request_id : Nat) (newStatus : String) :
    Except ApiError (Store × RideRequest) :=
  if validStatuses.contains newStatus then
    match findById s.requests request_id with
    | none => .error .notFound
    | some req =>
      match acceptAdjust s req newStatus with
      | .error e => .error e
      | .ok s1 =>
        let s2 := releaseAdjust s1 req newStatus
        let reqs3 := updateById s2.requests request_id (fun r => { r with status := newStatus })
        .ok ({ s2 with requests := reqs3 }, { req with status := newStatus })
  else
    .error .invalidArgument

/-- The seats available on ride `rid`, if it exists. -/
def seatsAvailOf (s : Store) (rid : Nat) : Option Int :=
  (findById s.rides rid).map (·.seats_available)

/-- One ledger call in a sequential (single-writer) trace: a failing call
leaves the store unchanged. -/
inductive Op where
  | requestSeats (ride_id passenger_id : Nat) (seats : Int)
  | setStatus (request_id : Nat) (newStatus : String)

/-- Apply one call to the store, keeping the old store when the call errors. -/
def applyOp (s : Store) (op : Op) : Store :=
  match op with
  | .requestSeats r p n =>
    match create_ride_request s r p n with
    | .ok (s1, _) => s1
    | .error _ => s
  | .setStatus i st =>
    match update_request_status s i st with
    | .ok (s1, _) => s1
    | .error _ => s

/-- Run a sequence of ledger calls. -/
def run (s : Store) (ops : List Op) : Store :=
  ops.foldl applyOp s

/-! ## Match scorer -/

/-- The soldier fields the scorer reads. -/
structure ScoreSoldier where
  home_area : String
  base_name : String
deriving Repr, DecidableEq

/-- The ride fields the scorer reads.  `departure_time` is seconds since the
epoch, `none` when the stored value cannot be parsed as a datetime;
`price_per_seat` is a rational (floats carry no rounding surprises at the
granularity the formula uses). -/
structure ScoreRide where
  from_area : String
  to_area : String
  departure_time : Option Int
  seats_available : Int
  price_per_seat : Rat
deriving Repr, DecidableEq

/-- `needle.isPrefixOf`-based substring test on character lists:
Python's `needle in hay`. -/
def subOf (needle : List Char) : List Char → Bool
  | [] => needle.isPrefixOf ([] : List Char)
  | c :: t => needle.isPrefixOf (c :: t) || subOf needle t

/-- Python's `a.lower() in b.lower()`; lowercasing a string maps
`Char.toLower` over its characters. -/
def lowerIn (a b : String) : Bool :=
  subOf (a.data.map Char.toLower) (b.data.map Char.toLower)

/-- Python's `round` on a rational: round half to even. -/
def pyRound (q : Rat) : Int :=
  let f := Int.fdiv q.num q.den
  let r := q - (f : Rat)
  if r < 1/2 then f
  else if 1/2 < r then f + 1
  else if f % 2 = 0 then f else f + 1

/-- Python's `round(x, 2)`. -/
def round2 (q : Rat) : Rat := (pyRound (q * 100) : Rat) / 100

/-- `score_ride` from `suggest_rides`, translated term by term: affinity of
home_area with from_area, of base_name with to_area, time proximity (skipped
when the departure time does not parse), seats bonus, price sensitivity. -/
def score_ride (soldier : ScoreSoldier) (now : Int) (ride : ScoreRide) : Rat :=
  let s0 : Rat := 0
  let s1 :=
    if !soldier.home_area.isEmpty && !ride.from_area.isEmpty &&
        (lowerIn soldier.home_area ride.from_area || lowerIn ride.from_area soldier.home_area)
    then s0 + 5 else s0
  let s2 :=
    if !soldier.base_name.isEmpty && !ride.to_area.isEmpty &&
        (lowerIn soldier.base_name ride.to_area || lowerIn ride.to_area soldier.base_name)
    then s1 + 5 else s1
  let s3 : Rat :=
    match ride.departure_time with
    | some dt => s2 + max 0 (6 - min ((((dt - now).natAbs : Int) : Rat) / 3600) 6)
    | none => s2
  let s4 := s3 + min ride.seats_available 4 * (1/2)
  let s5 := s4 + max 0 (3 - min (ride.price_per_seat / 10) 3)
  s5

/-- window_hours clamp: `max(1, min(window_hours, 168))`. -/
def clampWindow (w : Int) : Int := max 1 (min w 168)

/-- The candidate filter of `suggest_rides`: departure between `now` and
`latest` (a non-datetime departure value never matches the range query),
with seats available. -/
def inWindow (now latest : Int) (r : ScoreRide) : Bool :=
  match r.departure_time with
  | some dt => decide (now ≤ dt) && decide (dt ≤ latest) && decide (0 < r.seats_available)
  | none => false

/-- The candidate fetch: filter to the window, capped at 200. -/
def fetchCandidates (now w : Int) (rides : List ScoreRide) : List ScoreRide :=
  (rides.filter (inWindow now (now + clampWindow w * 3600))).take 200

/-- Each fetched ride paired with its rounded score. -/
def scoredOf (soldier : ScoreSoldier) (now : Int) (rides : List ScoreRide) :
    List (ScoreRide × Rat) :=
  rides.map (fun r => (r, round2 (score_ride soldier now r)))

/-- The sort key of `scored.sort(key=..., reverse=True)`: a stable sort that
puts `a` before `b` when `a`'s score is at least `b`'s. -/
def scoreDesc (a b : ScoreRide × Rat) : Bool := decide (b.2 ≤ a.2)

/-- POST /ai/suggest-rides, after the soldier lookup: fetch candidates in the
clamped window, score, sort descending by score (stable), truncate to 50. -/
def suggest_rides (soldier : ScoreSoldier) (now w : Int) (rides : List ScoreRide) :
    List (ScoreRide × Rat) :=
  ((scoredOf soldier now (fetchCandidates now w rides)).mergeSort scoreDesc).take 50

/-- Modelled from the claim wording for the score formula (C7): the sum of
five independent terms, rounded to 2 decimals.  To be compared with the
code-derived `score_ride`. -/
def spec_score (soldier : ScoreSoldier) (now : Int) (ride : ScoreRide) : Rat :=
  (if !soldier.home_area.isEmpty && !ride.from_area.isEmpty &&
      (lowerIn soldier.home_area ride.from_area || lowerIn ride.from_area soldier.home_area)
   then (5 : Rat) else 0) +
  (if !soldier.base_name.isEmpty && !ride.to_area.isEmpty &&
      (lowerIn soldier.base_name ride.to_area || lowerIn ride.to_area soldier.base_name)
   then (5 : Rat) else 0) +
  (match ride.departure_time with
   | some dt => max 0 (6 - min ((((dt - now).natAbs : Int) : Rat) / 3600) 6)
   | none => 0) +
  min ride.seats_available 4 * (1/2) +
  max 0 (3 - min (ride.price_per_seat / 10) 3)

/-! ## Ledger invariant -/

/-- Contribution of one stored request to the accepted-seat total of ride
`rid`. -/
def contrib (rid : Nat) (p : Nat × RideRequest) : Int :=
  if p.2.ride_id == rid && p.2.status == "accepted" then p.2.seats else 0

/-- Seats currently reserved by accepted requests of ride `rid`. -/
def acceptedSeats (requests : List (Nat × RideRequest)) (rid : Nat) : Int :=
  (requests.map (contrib rid)).sum

/-- The inductive store invariant: generated keys are distinct and below
`nextId`, every stored request asks for at least one seat, and every ride has
a nonnegative `seats_available` that, together with the seats of its accepted
requests, does not exceed `seats_total`. -/
structure Inv (s : Store) : Prop where
  rideKeys : (s.rides.map Prod.fst).Nodup
  reqKeys : (s.requests.map Prod.fst).Nodup
  rideKeysLt : ∀ p ∈ s.rides, p.1 < s.nextId
  reqKeysLt : ∀ p ∈ s.requests, p.1 < s.nextId
  seatsPos : ∀ p ∈ s.requests, 1 ≤ p.2.seats
  reqRideLt : ∀ p ∈ s.requests, p.2.ride_id < s.nextId
  rideOK : ∀ p ∈ s.rides, 0 ≤ p.2.seats_available ∧
    p.2.seats_available + acceptedSeats s.requests p.1 ≤ p.2.seats_total

theorem findById_nil (i : Nat) : findById ([] : List (Nat × α)) i = none := rfl

theorem findById_cons (k : Nat) (v : α) (t : List (Nat × α)) (j : Nat) :
    findById ((k, v) :: t) j = if k = j then some v else findById t j := by
  by_cases h : k = j
  · have hb : (k == j) = true := by simp [h]
    simp [findById, List.find?, hb, h]
  · have hb : (k == j) = false := by simp [h]
    simp [findById, List.find?, hb, h]

theorem updateById_nil (i : Nat) (f : α → α) :
    updateById ([] : List (Nat × α)) i f = [] := rfl

theorem updateById_cons (k : Nat) (v : α) (t : List (Nat × α)) (i : Nat) (f : α → α) :
    updateById ((k, v) :: t) i f =
      (if k = i then (k, f v) else (k, v)) :: updateById t i f := by
  by_cases h : k = i <;> simp [updateById, h]

theorem findById_mem {l : List (Nat × α)} {i : Nat} {a : α}
    (h : findById l i = some a) : (i, a) ∈ l := by
  induction l with
  | nil => simp [findById_nil] at h
  | cons p t ih =>
    rcases p with ⟨k, v⟩
    rw [findById_cons] at h
    by_cases hk : k = i
    · rw [if_pos hk, Option.some.injEq] at h
      subst hk
      subst h
      exact List.mem_cons_self _ _
    · rw [if_neg hk] at h
      exact List.mem_cons_of_mem _ (ih h)

theorem keys_updateById (l : List (Nat × α)) (i : Nat) (f : α → α) :
    (updateById l i f).map Prod.fst = l.map Prod.fst := by
  induction l with
  | nil => rfl
  | cons p t ih =>
    rcases p with ⟨k, v⟩
    rw [updateById_cons]
    by_cases hk : k = i <;> simp [hk, ih]

theorem mem_updateById {l : List (Nat × α)} {i : Nat} {f : α → α} {p : Nat × α}
    (h : p ∈ updateById l i f) :
    (p ∈ l ∧ p.1 ≠ i) ∨ (∃ q, (i, q) ∈ l ∧ p = (i, f q)) := by
  induction l with
  | nil => simp [updateById_nil] at h
  | cons x t ih =>
    rcases x with ⟨k, v⟩
    rw [updateById_cons] at h
    rcases List.mem_cons.mp h with heq | hmem
    · by_cases hk : k = i
      · right
        subst hk
        rw [if_pos rfl] at heq
        exact ⟨v, List.mem_cons_self _ _, heq⟩
      · left
        rw [if_neg hk] at heq
        subst heq
        exact ⟨List.mem_cons_self _ _, hk⟩
    · rcases ih hmem with ⟨hp, hne⟩ | ⟨q, hq, heq⟩
      · exact Or.inl ⟨List.mem_cons_of_mem _ hp, hne⟩
      · exact Or.inr ⟨q, List.mem_cons_of_mem _ hq, heq⟩

theorem findById_updateById (l : List (Nat × α)) (i j : Nat) (f : α → α) :
    findById (updateById l i f) j =
      if j = i then (findById l i).map f else findById l j := by
  induction l with
  | nil => by_cases h : j = i <;> simp [updateById_nil, findById_nil, h]
  | cons p t ih =>
    rcases p with ⟨k, v⟩
    rw [updateById_cons]
    by_cases hk : k = i
    · subst hk
      by_cases hj : j = k
      · subst hj
        simp [findById_cons, ih]
      · have hjk : ¬ (k = j) := fun hc => hj hc.symm
        simp [findById_cons, ih, hj, hjk]
    · by_cases hj : j = i
      · subst hj
        simp [findById_cons, ih, hk]
      · by_cases hkj : k = j
        · subst hkj
          simp [findById_cons, ih, hj, hk]
        · simp [findById_cons, ih, hj, hk, hkj]

theorem findById_of_mem_nodup {l : List (Nat × α)} {i : Nat} {a : α}
    (hnd : (l.map Prod.fst).Nodup) (h : (i, a) ∈ l) : findById l i = some a := by
  induction l with
  | nil => cases h
  | cons p t ih =>
    rcases p with ⟨k, v⟩
    simp only [List.map_cons, List.nodup_cons] at hnd
    rcases List.mem_cons.mp h with heq | hmem
    · rw [Prod.mk.injEq] at heq
      obtain ⟨h1, h2⟩ := heq
      subst h1
      subst h2
      rw [findById_cons, if_pos rfl]
    · have hki : k ≠ i := by
        intro hc
        exact hnd.1 (hc ▸ List.mem_map.mpr ⟨(i, a), hmem, rfl⟩)
      rw [findById_cons, if_neg hki]
      exact ih hnd.2 hmem

theorem acceptedSeats_append (l : List (Nat × RideRequest)) (x : Nat × RideRequest)
    (rid : Nat) :
    acceptedSeats (l ++ [x]) rid = acceptedSeats l rid + contrib rid x := by
  simp [acceptedSeats]

theorem contrib_nonneg {rid : Nat} {p : Nat × RideRequest}
    (h : 1 ≤ p.2.seats) : 0 ≤ contrib rid p := by
  unfold contrib
  split
  · omega
  · exact le_refl 0

theorem acceptedSeats_nonneg {l : List (Nat × RideRequest)} {rid : Nat}
    (h : ∀ p ∈ l, 1 ≤ p.2.seats) : 0 ≤ acceptedSeats l rid := by
  induction l with
  | nil => simp [acceptedSeats]
  | cons p t ih =>
    have hc := @contrib_nonneg rid p (h p (List.mem_cons_self p t))
    have ht := ih (fun q hq => h q (List.mem_cons_of_mem p hq))
    simp only [acceptedSeats, List.map_cons, List.sum_cons] at *
    omega

theorem updateById_not_mem {l : List (Nat × α)} {i : Nat} (f : α → α)
    (h : ∀ r ∈ l, r.1 ≠ i) : updateById l i f = l := by
  induction l with
  | nil => rfl
  | cons r u ih =>
    rcases r with ⟨k, v⟩
    have hk : k ≠ i := h (k, v) (List.mem_cons_self _ _)
    rw [updateById_cons, if_neg hk, ih (fun x hx => h x (List.mem_cons_of_mem _ hx))]

theorem acceptedSeats_updateById {l : List (Nat × RideRequest)} {i : Nat}
    {q : RideRequest} (f : RideRequest → RideRequest)
    (hnd : (l.map Prod.fst).Nodup) (hmem : (i, q) ∈ l) (rid : Nat) :
    acceptedSeats (updateById l i f) rid =
      acceptedSeats l rid - contrib rid (i, q) + contrib rid (i, f q) := by
  induction l with
  | nil => cases hmem
  | cons p t ih =>
    rcases p with ⟨k, v⟩
    simp only [List.map_cons, List.nodup_cons] at hnd
    rcases List.mem_cons.mp hmem with heq | hmemt
    · rw [Prod.mk.injEq] at heq
      obtain ⟨h1, h2⟩ := heq
      subst h1
      subst h2
      have hni : ∀ r ∈ t, r.1 ≠ i := by
        intro r hr hc
        exact hnd.1 (hc ▸ List.mem_map.mpr ⟨r, hr, rfl⟩)
      rw [updateById_cons, if_pos rfl, updateById_not_mem f hni]
      simp only [acceptedSeats, List.map_cons, List.sum_cons]
      omega
    · have hki : k ≠ i := by
        intro hc
        exact hnd.1 (hc ▸ List.mem_map.mpr ⟨(i, q), hmemt, rfl⟩)
      have := ih hnd.2 hmemt
      rw [updateById_cons, if_neg hki]
      simp only [acceptedSeats, List.map_cons, List.sum_cons] at this ⊢
      omega

theorem keysLt_updateById {l : List (Nat × α)} {i : Nat} {f : α → α} {n : Nat}
    (h : ∀ p ∈ l, p.1 < n) : ∀ p ∈ updateById l i f, p.1 < n := by
  intro p hp
  rcases mem_updateById hp with ⟨hm, _⟩ | ⟨q, hq, heq⟩
  · exact h p hm
  · rw [heq]
    exact h (i, q) hq

theorem seatsPos_updateStatus {l : List (Nat × RideRequest)} {i : Nat} {ns : String}
    (h : ∀ p ∈ l, 1 ≤ p.2.seats) :
    ∀ p ∈ updateById l i (fun r => { r with status := ns }), 1 ≤ p.2.seats := by
  intro p hp
  rcases mem_updateById hp with ⟨hm, _⟩ | ⟨q, hq, heq⟩
  · exact h p hm
  · rw [heq]
    exact h (i, q) hq

theorem reqRideLt_updateStatus {l : List (Nat × RideRequest)} {i : Nat} {ns : String}
    {n : Nat} (h : ∀ p ∈ l, p.2.ride_id < n) :
    ∀ p ∈ updateById l i (fun r => { r with status := ns }), p.2.ride_id < n := by
  intro p hp
  rcases mem_updateById hp with ⟨hm, _⟩ | ⟨q, hq, heq⟩
  · exact h p hm
  · rw [heq]
    exact h (i, q) hq

theorem acceptedSeats_eq_zero {l : List (Nat × RideRequest)} {rid : Nat}
    (h : ∀ p ∈ l, ¬ p.2.ride_id = rid) : acceptedSeats l rid = 0 := by
  induction l with
  | nil => rfl
  | cons p t ih =>
    have hp := h p (List.mem_cons_self p t)
    have ht := ih (fun q hq => h q (List.mem_cons_of_mem p hq))
    have hc : contrib rid p = 0 := by
      unfold contrib
      rw [if_neg]
      simp [hp]
    simp only [acceptedSeats, List.map_cons, List.sum_cons] at *
    omega

theorem contrib_eval (rid : Nat) (i : Nat) (req : RideRequest) :
    contrib rid (i, req) =
      if req.ride_id = rid ∧ req.status = "accepted" then req.seats else 0 := by
  unfold contrib
  by_cases h1 : req.ride_id = rid <;> by_cases h2 : req.status = "accepted" <;>
    simp [h1, h2]

/-- Invariant preservation for the `!accepted → accepted` path of SetStatus:
the ride is decremented and the request becomes accepted. -/
theorem Inv_accept_path {s : Store} {i : Nat} {req : RideRequest} {ride : Ride}
    (hInv : Inv s) (hreq : findById s.requests i = some req)
    (hst : ¬ req.status = "accepted")
    (hride : findById s.rides req.ride_id = some ride)
    (hsa : req.seats ≤ ride.seats_available) :
    Inv { s with
      rides := updateById s.rides req.ride_id
        (fun r => { r with seats_available := r.seats_available - req.seats }),
      requests := updateById s.requests i (fun r => { r with status := "accepted" }) } := by
  have hmemreq : (i, req) ∈ s.requests := findById_mem hreq
  refine ⟨?_, ?_, ?_, ?_, ?_, ?_, ?_⟩ <;> dsimp only
  · rw [keys_updateById]
    exact hInv.rideKeys
  · rw [keys_updateById]
    exact hInv.reqKeys
  · exact keysLt_updateById hInv.rideKeysLt
  · exact keysLt_updateById hInv.reqKeysLt
  · exact seatsPos_updateStatus hInv.seatsPos
  · exact reqRideLt_updateStatus hInv.reqRideLt
  · intro p hp
    have hsumEq := acceptedSeats_updateById
      (fun r => { r with status := "accepted" }) hInv.reqKeys hmemreq p.1
    rcases mem_updateById hp with ⟨hm, hne⟩ | ⟨q0, hq0, heq⟩
    · obtain ⟨h0, hsum⟩ := hInv.rideOK p hm
      have hco : contrib p.1 (i, req) = 0 := by
        rw [contrib_eval, if_neg (fun hc => hne hc.1.symm)]
      have hcn : contrib p.1 (i, { req with status := "accepted" }) = 0 := by
        rw [contrib_eval, if_neg (fun hc => hne hc.1.symm)]
      constructor
      · exact h0
      · rw [hsumEq, hco, hcn]
        omega
    · subst heq
      have hfq0 := findById_of_mem_nodup hInv.rideKeys hq0
      rw [hride] at hfq0
      injection hfq0 with hq0r
      subst hq0r
      obtain ⟨h0, hsum⟩ := hInv.rideOK _ hq0
      have hco : contrib req.ride_id (i, req) = 0 := by
        rw [contrib_eval, if_neg (fun hc => hst hc.2)]
      have hcn : contrib req.ride_id (i, { req with status := "accepted" }) = req.seats := by
        rw [contrib_eval, if_pos ⟨rfl, rfl⟩]
      dsimp only at hsumEq h0 hsum ⊢
      rw [hsumEq, hco, hcn]
      constructor
      · omega
      · omega

/-- Invariant preservation for the `accepted → rejected/cancelled` path of
SetStatus: the ride is incremented and the request leaves accepted. -/
theorem Inv_release_path {s : Store} {i : Nat} {req : RideRequest} {ns : String}
    (hInv : Inv s) (hreq : findById s.requests i = some req)
    (hst : req.status = "accepted") (hns : ns = "rejected" ∨ ns = "cancelled") :
    Inv { s with
      rides := updateById s.rides req.ride_id
        (fun r => { r with seats_available := r.seats_available + req.seats }),
      requests := updateById s.requests i (fun r => { r with status := ns }) } := by
  have hmemreq : (i, req) ∈ s.requests := findById_mem hreq
  have hkpos : 1 ≤ req.seats := hInv.seatsPos (i, req) hmemreq
  have hnsacc : ¬ ns = "accepted" := by
    rcases hns with h | h <;> rw [h] <;> decide
  refine ⟨?_, ?_, ?_, ?_, ?_, ?_, ?_⟩ <;> dsimp only
  · rw [keys_updateById]
    exact hInv.rideKeys
  · rw [keys_updateById]
    exact hInv.reqKeys
  · exact keysLt_updateById hInv.rideKeysLt
  · exact keysLt_updateById hInv.reqKeysLt
  · exact seatsPos_updateStatus hInv.seatsPos
  · exact reqRideLt_updateStatus hInv.reqRideLt
  · intro p hp
    have hsumEq := acceptedSeats_updateById
      (fun r => { r with status := ns }) hInv.reqKeys hmemreq p.1
    rcases mem_updateById hp with ⟨hm, hne⟩ | ⟨q0, hq0, heq⟩
    · obtain ⟨h0, hsum⟩ := hInv.rideOK p hm
      have hco : contrib p.1 (i, req) = 0 := by
        rw [contrib_eval, if_neg (fun hc => hne hc.1.symm)]
      have hcn : contrib p.1 (i, { req with status := ns }) = 0 := by
        rw [contrib_eval, if_neg (fun hc => hne hc.1.symm)]
      constructor
      · exact h0
      · rw [hsumEq, hco, hcn]
        omega
    · subst heq
      obtain ⟨h0, hsum⟩ := hInv.rideOK _ hq0
      have hco : contrib req.ride_id (i, req) = req.seats := by
        rw [contrib_eval, if_pos ⟨rfl, hst⟩]
      have hcn : contrib req.ride_id (i, { req with status := ns }) = 0 := by
        rw [contrib_eval, if_neg (fun hc => hnsacc hc.2)]
      dsimp only at hsumEq h0 hsum ⊢
      rw [hsumEq, hco, hcn]
      constructor
      · omega
      · omega

/-- Invariant preservation for SetStatus transitions with no seat side effect:
only the request's status field is written.  Covers every transition where the
accept branch requires the request to already be accepted if the target is
accepted. -/
theorem Inv_plain_path {s : Store} {i : Nat} {req : RideRequest} {ns : String}
    (hInv : Inv s) (hreq : findById s.requests i = some req)
    (hns : ns = "accepted" → req.status = "accepted") :
    Inv { s with
      requests := updateById s.requests i (fun r => { r with status := ns }) } := by
  have hmemreq : (i, req) ∈ s.requests := findById_mem hreq
  have hkpos : 1 ≤ req.seats := hInv.seatsPos (i, req) hmemreq
  refine ⟨?_, ?_, ?_, ?_, ?_, ?_, ?_⟩ <;> dsimp only
  · exact hInv.rideKeys
  · rw [keys_updateById]
    exact hInv.reqKeys
  · exact hInv.rideKeysLt
  · exact keysLt_updateById hInv.reqKeysLt
  · exact seatsPos_updateStatus hInv.seatsPos
  · exact reqRideLt_updateStatus hInv.reqRideLt
  · intro p hp
    obtain ⟨h0, hsum⟩ := hInv.rideOK p hp
    have hsumEq := acceptedSeats_updateById
      (fun r => { r with status := ns }) hInv.reqKeys hmemreq p.1
    have hmono : contrib p.1 (i, { req with status := ns }) ≤ contrib p.1 (i, req) := by
      rw [contrib_eval, contrib_eval]
      by_cases hacc : ns = "accepted"
      · rw [hns hacc, hacc]
      · simp only [hacc, and_false, if_false]
        split
        · omega
        · omega
    constructor
    · exact h0
    · rw [hsumEq]
      omega

/-! ## Reduction lemmas for the SetStatus branches -/

theorem acceptAdjust_skip {s : Store} {req : RideRequest} {ns : String}
    (h : req.status = "accepted" ∨ ¬ ns = "accepted") :
    acceptAdjust s req ns = .ok s := by
  have hc : (req.status != "accepted" && ns == "accepted") = false := by
    rcases h with h | h <;> simp [h]
  unfold acceptAdjust
  rw [hc]
  rfl

theorem acceptAdjust_do {s : Store} {req : RideRequest} {ride : Ride}
    (hst : ¬ req.status = "accepted")
    (hride : findById s.rides req.ride_id = some ride)
    (hsa : req.seats ≤ ride.seats_available) :
    acceptAdjust s req "accepted" =
      .ok { s with
        rides := updateById s.rides req.ride_id
          (fun r => { r with seats_available := r.seats_available - req.seats }) } := by
  have hc : (req.status != "accepted" && "accepted" == "accepted") = true := by
    simp [hst]
  unfold acceptAdjust
  rw [hc, if_pos rfl, hride]
  dsimp only
  rw [if_neg (by omega : ¬ ride.seats_available < req.seats)]

theorem acceptAdjust_noRide {s : Store} {req : RideRequest}
    (hst : ¬ req.status = "accepted")
    (hride : findById s.rides req.ride_id = none) :
    acceptAdjust s req "accepted" = .error .notFound := by
  have hc : (req.status != "accepted" && "accepted" == "accepted") = true := by
    simp [hst]
  unfold acceptAdjust
  rw [hc, if_pos rfl, hride]

theorem acceptAdjust_insufficient {s : Store} {req : RideRequest} {ride : Ride}
    (hst : ¬ req.status = "accepted")
    (hride : findById s.rides req.ride_id = some ride)
    (hsa : ride.seats_available < req.seats) :
    acceptAdjust s req "accepted" = .error .invalidArgument := by
  have hc : (req.status != "accepted" && "accepted" == "accepted") = true := by
    simp [hst]
  unfold acceptAdjust
  rw [hc, if_pos rfl, hride]
  dsimp only
  rw [if_pos hsa]

theorem releaseAdjust_skip {s : Store} {req : RideRequest} {ns : String}
    (h : ¬ (req.status = "accepted" ∧ (ns = "rejected" ∨ ns = "cancelled"))) :
    releaseAdjust s req ns = s := by
  have hc : (req.status == "accepted" && (ns == "rejected" || ns == "cancelled")) = false := by
    by_cases h1 : req.status = "accepted"
    · by_cases h2 : ns = "rejected"
      · exact absurd ⟨h1, Or.inl h2⟩ h
      · by_cases h3 : ns = "cancelled"
        · exact absurd ⟨h1, Or.inr h3⟩ h
        · simp [h1, h2, h3]
    · simp [h1]
  unfold releaseAdjust
  rw [hc]
  rfl

theorem releaseAdjust_do {s : Store} {req : RideRequest} {ns : String}
    (hst : req.status = "accepted") (hns : ns = "rejected" ∨ ns = "cancelled") :
    releaseAdjust s req ns =
      { s with
        rides := updateById s.rides req.ride_id
          (fun r => { r with seats_available := r.seats_available + req.seats }) } := by
  have hc : (req.status == "accepted" && (ns == "rejected" || ns == "cancelled")) = true := by
    rcases hns with h | h <;> simp [hst, h]
  unfold releaseAdjust
  rw [hc, if_pos rfl]

theorem setStatus_invalid {s : Store} {i : Nat} {ns : String}
    (h : validStatuses.contains ns = false) :
    update_request_status s i ns = .error .invalidArgument := by
  unfold update_request_status
  rw [h]
  rfl

theorem setStatus_notFound {s : Store} {i : Nat} {ns : String}
    (hv : validStatuses.contains ns = true)
    (h : findById s.requests i = none) :
    update_request_status s i ns = .error .notFound := by
  unfold update_request_status
  rw [hv, if_pos rfl, h]

/-- Success shape of SetStatus in terms of the two adjustment blocks. -/
theorem setStatus_ok {s s1 : Store} {i : Nat} {req : RideRequest} {ns : String}
    (hv : validStatuses.contains ns = true)
    (hreq : findById s.requests i = some req)
    (hacc : acceptAdjust s req ns = .ok s1) :
    update_request_status s i ns =
      .ok ({ releaseAdjust s1 req ns with
               requests := updateById (releaseAdjust s1 req ns).requests i
                 (fun r => { r with status := ns }) },
           { req with status := ns }) := by
  unfold update_request_status
  rw [hv, if_pos rfl, hreq]
  dsimp only
  rw [hacc]

/-- Classify the possible successful outcomes of the accept block. -/
theorem acceptAdjust_ok_cases {s s1 : Store} {req : RideRequest} {ns : String}
    (h : acceptAdjust s req ns = .ok s1) :
    ((req.status = "accepted" ∨ ¬ ns = "accepted") ∧ s1 = s) ∨
    (¬ req.status = "accepted" ∧ ns = "accepted" ∧
      ∃ ride, findById s.rides req.ride_id = some ride ∧
        req.seats ≤ ride.seats_available ∧
        s1 = { s with
          rides := updateById s.rides req.ride_id
            (fun r => { r with seats_available := r.seats_available - req.seats }) }) := by
  by_cases h1 : req.status = "accepted"
  · left
    rw [acceptAdjust_skip (Or.inl h1)] at h
    injection h with h2
    exact ⟨Or.inl h1, h2.symm⟩
  · by_cases h2 : ns = "accepted"
    · right
      subst h2
      cases hr : findById s.rides req.ride_id with
      | none =>
        rw [acceptAdjust_noRide h1 hr] at h
        cases h
      | some ride =>
        by_cases h3 : ride.seats_available < req.seats
        · rw [acceptAdjust_insufficient h1 hr h3] at h
          cases h
        · rw [acceptAdjust_do h1 hr (by omega)] at h
          injection h with h4
          exact ⟨h1, rfl, ride, rfl, by omega, h4.symm⟩
    · left
      rw [acceptAdjust_skip (Or.inr h2)] at h
      injection h with h3
      exact ⟨Or.inr h2, h3.symm⟩

/-- SetStatus preserves the store invariant. -/
theorem Inv_update_request_status {s : Store} {i : Nat} {ns : String}
    {out : Store × RideRequest}
    (hInv : Inv s) (h : update_request_status s i ns = .ok out) : Inv out.1 := by
  by_cases hv : validStatuses.contains ns = true
  swap
  · rw [setStatus_invalid (Bool.eq_false_iff.mpr hv)] at h
    cases h
  · cases hreq : findById s.requests i with
    | none =>
      rw [setStatus_notFound hv hreq] at h
      cases h
    | some req =>
      cases hacc : acceptAdjust s req ns with
      | error e =>
        unfold update_request_status at h
        rw [hv, if_pos rfl, hreq] at h
        dsimp only at h
        rw [hacc] at h
        cases h
      | ok s1 =>
        rw [setStatus_ok hv hreq hacc] at h
        injection h with h1
        subst h1
        dsimp only
        rcases acceptAdjust_ok_cases hacc with ⟨hskip, rfl⟩ | ⟨hna, hnsacc, ride, hr, hsa, rfl⟩
        · by_cases hrel : req.status = "accepted" ∧ (ns = "rejected" ∨ ns = "cancelled")
          · rw [releaseAdjust_do hrel.1 hrel.2]
            exact Inv_release_path hInv hreq hrel.1 hrel.2
          · rw [releaseAdjust_skip hrel]
            apply Inv_plain_path hInv hreq
            intro hns2
            rcases hskip with h1 | h1
            · exact h1
            · exact absurd hns2 h1
        · subst hnsacc
          rw [releaseAdjust_skip (by rintro ⟨hc, -⟩; exact hna hc)]
          exact Inv_accept_path hInv hreq hna hr hsa

/-- RequestSeats preserves the store invariant. -/
theorem Inv_create_ride_request {s : Store} {rid pid : Nat} {n : Int}
    {out : Store × Nat}
    (hInv : Inv s) (h : create_ride_request s rid pid n = .ok out) : Inv out.1 := by
  unfold create_ride_request at h
  cases hr : findById s.rides rid with
  | none =>
    rw [hr] at h
    cases h
  | some ride =>
    rw [hr] at h
    dsimp only at h
    by_cases hp : s.soldiers.contains pid = true
    swap
    · rw [if_neg hp] at h
      cases h
    · rw [if_pos hp] at h
      by_cases h1 : n < 1
      · rw [if_pos h1] at h
        cases h
      · rw [if_neg h1] at h
        by_cases h2 : ride.seats_available < n
        · rw [if_pos h2] at h
          cases h
        · rw [if_neg h2] at h
          injection h with h3
          subst h3
          dsimp only
          refine ⟨?_, ?_, ?_, ?_, ?_, ?_, ?_⟩ <;> dsimp only
          · exact hInv.rideKeys
          · rw [List.map_append]
            refine List.Nodup.append hInv.reqKeys (List.nodup_singleton _) ?_
            intro a ha hb
            rcases List.mem_map.mp ha with ⟨p, hpmem, hpa⟩
            have hlt := hInv.reqKeysLt p hpmem
            simp only [List.map_cons, List.map_nil, List.mem_singleton] at hb
            omega
          · intro p hp2
            exact Nat.lt_succ_of_lt (hInv.rideKeysLt p hp2)
          · intro p hp2
            rcases List.mem_append.mp hp2 with hm | hm
            · exact Nat.lt_succ_of_lt (hInv.reqKeysLt p hm)
            · rw [List.mem_singleton] at hm
              rw [hm]
              exact Nat.lt_succ_self _
          · intro p hp2
            rcases List.mem_append.mp hp2 with hm | hm
            · exact hInv.seatsPos p hm
            · rw [List.mem_singleton] at hm
              rw [hm]
              dsimp only
              omega
          · intro p hp2
            rcases List.mem_append.mp hp2 with hm | hm
            · exact Nat.lt_succ_of_lt (hInv.reqRideLt p hm)
            · rw [List.mem_singleton] at hm
              rw [hm]
              dsimp only
              have hrid := hInv.rideKeysLt _ (findById_mem hr)
              omega
          · intro p hp2
            obtain ⟨h0, hsum⟩ := hInv.rideOK p hp2
            refine ⟨h0, ?_⟩
            rw [acceptedSeats_append]
            have hc0 : contrib p.1 (s.nextId, ⟨rid, pid, n, "pending"⟩) = 0 := by
              rw [contrib_eval]
              split
              · rename_i hcond
                have hpa : ¬ ("pending" : String) = "accepted" := by decide
                exact absurd hcond.2 hpa
              · rfl
            rw [hc0]
            omega

/-- Every single ledger call, successful or failing, preserves the invariant. -/
theorem Inv_applyOp {s : Store} (hInv : Inv s) (op : Op) : Inv (applyOp s op) := by
  cases op with
  | requestSeats r p n =>
    unfold applyOp
    dsimp only
    cases h : create_ride_request s r p n with
    | ok out =>
      rcases out with ⟨s1, j⟩
      exact Inv_create_ride_request hInv h
    | error e => exact hInv
  | setStatus i st =>
    unfold applyOp
    dsimp only
    cases h : update_request_status s i st with
    | ok out =>
      rcases out with ⟨s1, r⟩
      exact Inv_update_request_status hInv h
    | error e => exact hInv

/-- Any sequence of ledger calls preserves the invariant. -/
theorem Inv_run {s : Store} (hInv : Inv s) (ops : List Op) : Inv (run s ops) := by
  induction ops generalizing s with
  | nil => exact hInv
  | cons op t ih => exact ih (Inv_applyOp hInv op)

/-- Creating a ride with a nonnegative `seats_total` preserves the invariant:
the fresh ride starts with `seats_available = seats_total` and no accepted
requests can reference its id yet. -/
theorem Inv_create_ride {s : Store} {d : Nat} {st : Int} {out : Store × Nat}
    (hInv : Inv s) (hst : 0 ≤ st) (h : create_ride s d st = .ok out) :
    Inv out.1 := by
  unfold create_ride at h
  by_cases hd : s.soldiers.contains d = true
  swap
  · rw [if_neg hd] at h
    cases h
  · rw [if_pos hd] at h
    injection h with h1
    subst h1
    dsimp only
    refine ⟨?_, ?_, ?_, ?_, ?_, ?_, ?_⟩ <;> dsimp only
    · rw [List.map_append]
      refine List.Nodup.append hInv.rideKeys (List.nodup_singleton _) ?_
      intro a ha hb
      rcases List.mem_map.mp ha with ⟨p, hpmem, hpa⟩
      have hlt := hInv.rideKeysLt p hpmem
      simp only [List.map_cons, List.map_nil, List.mem_singleton] at hb
      omega
    · exact hInv.reqKeys
    · intro p hp2
      rcases List.mem_append.mp hp2 with hm | hm
      · exact Nat.lt_succ_of_lt (hInv.rideKeysLt p hm)
      · rw [List.mem_singleton] at hm
        rw [hm]
        exact Nat.lt_succ_self _
    · intro p hp2
      exact Nat.lt_succ_of_lt (hInv.reqKeysLt p hp2)
    · exact hInv.seatsPos
    · intro p hp2
      exact Nat.lt_succ_of_lt (hInv.reqRideLt p hp2)
    · intro p hp2
      rcases List.mem_append.mp hp2 with hm | hm
      · exact hInv.rideOK p hm
      · rw [List.mem_singleton] at hm
        rw [hm]
        dsimp only
        have hz : acceptedSeats s.requests s.nextId = 0 := by
          apply acceptedSeats_eq_zero
          intro q hq hc
          have := hInv.reqRideLt q hq
          omega
        rw [hz]
        omega

/-- C1: starting from a store satisfying the ledger invariant, create a ride
(whose `seats_available` is initialized to `seats_total`), then run any
sequence of RequestSeats and SetStatus calls sequentially (single writer,
failing calls leaving the store unchanged): every ride in the resulting store,
the new one included, has `0 ≤ seats_available ≤ seats_total` after each
call. -/
theorem c1_seats_invariant (s0 : Store) (d : Nat) (st : Int) (s : Store)
    (rid : Nat) (hInv : Inv s0) (hst : 0 ≤ st)
    (hcr : create_ride s0 d st = .ok (s, rid)) (ops : List Op) :
    ∀ p ∈ (run s ops).rides,
      0 ≤ p.2.seats_available ∧ p.2.seats_available ≤ p.2.seats_total := by
  intro p hp
  have hI : Inv (run s ops) := Inv_run (Inv_create_ride hInv hst hcr) ops
  obtain ⟨h0, hsum⟩ := hI.rideOK p hp
  have hnn := @acceptedSeats_nonneg ((run s ops).requests) p.1 hI.seatsPos
  exact ⟨h0, by omega⟩

/-- Witness for C1 at a concrete trace: one soldier, ride of 4 seats, a request
for 2 seats which is then accepted; after the trace the ride reads
`seats_available = 2` within `[0, 4]`. -/
theorem c1_seats_invariant_witness :
    (0 : Int) ≤ ((1, (⟨0, 4, 2⟩ : Ride)) : Nat × Ride).2.seats_available ∧
      ((1, (⟨0, 4, 2⟩ : Ride)) : Nat × Ride).2.seats_available ≤
        ((1, (⟨0, 4, 2⟩ : Ride)) : Nat × Ride).2.seats_total :=
  c1_seats_invariant ⟨[0], [], [], 1⟩ 0 4 ⟨[0], [(1, ⟨0, 4, 4⟩)], [], 2⟩ 1
    ⟨by decide, by decide, by decide, by decide, by decide, by decide, by decide⟩
    (by decide) rfl
    [Op.requestSeats 1 0 2, Op.setStatus 2 "accepted"]
    (1, ⟨0, 4, 2⟩) (by decide)

theorem relSkip_accepted (s : Store) (req : RideRequest) :
    releaseAdjust s req "accepted" = s :=
  releaseAdjust_skip (by rintro ⟨-, hc | hc⟩ <;> exact absurd hc (by decide))

theorem relSkip_pending (s : Store) (req : RideRequest) :
    releaseAdjust s req "pending" = s :=
  releaseAdjust_skip (by rintro ⟨-, hc | hc⟩ <;> exact absurd hc (by decide))

/-- C2: SetStatus accept semantics.  (1) From a non-accepted status to
accepted, when the ride has enough seats, the call succeeds and decrements the
ride's `seats_available` by exactly `request.seats`.  (2) From accepted to
rejected or cancelled it increments it back by exactly `request.seats`.
(3) From accepted to accepted it leaves every ride unchanged.  (4) The §8
scenario: ride with 4 seats, request A for 3 → accept A gives 1 seat, request
B for 2 fails InvalidArgument, reject A restores 4. -/
theorem c2_accept_release_semantics :
    (∀ (s : Store) (i : Nat) (req : RideRequest) (ride : Ride),
      findById s.requests i = some req → ¬ req.status = "accepted" →
      findById s.rides req.ride_id = some ride → req.seats ≤ ride.seats_available →
      (update_request_status s i "accepted").map
          (fun out => (seatsAvailOf out.1 req.ride_id, out.2)) =
        .ok (some (ride.seats_available - req.seats), { req with status := "accepted" })) ∧
    (∀ (s : Store) (i : Nat) (req : RideRequest) (ride : Ride) (ns : String),
      findById s.requests i = some req → req.status = "accepted" →
      (ns = "rejected" ∨ ns = "cancelled") →
      findById s.rides req.ride_id = some ride →
      (update_request_status s i ns).map
          (fun out => (seatsAvailOf out.1 req.ride_id, out.2)) =
        .ok (some (ride.seats_available + req.seats), { req with status := ns })) ∧
    (∀ (s : Store) (i : Nat) (req : RideRequest),
      findById s.requests i = some req → req.status = "accepted" →
      (update_request_status s i "accepted").map (fun out => (out.1.rides, out.2)) =
        .ok (s.rides, { req with status := "accepted" })) ∧
    (create_ride ⟨[0, 1, 2], [], [], 3⟩ 0 4 =
        .ok (⟨[0, 1, 2], [(3, ⟨0, 4, 4⟩)], [], 4⟩, 3) ∧
      create_ride_request ⟨[0, 1, 2], [(3, ⟨0, 4, 4⟩)], [], 4⟩ 3 1 3 =
        .ok (⟨[0, 1, 2], [(3, ⟨0, 4, 4⟩)], [(4, ⟨3, 1, 3, "pending"⟩)], 5⟩, 4) ∧
      update_request_status ⟨[0, 1, 2], [(3, ⟨0, 4, 4⟩)], [(4, ⟨3, 1, 3, "pending"⟩)], 5⟩ 4
          "accepted" =
        .ok (⟨[0, 1, 2], [(3, ⟨0, 4, 1⟩)], [(4, ⟨3, 1, 3, "accepted"⟩)], 5⟩,
             ⟨3, 1, 3, "accepted"⟩) ∧
      create_ride_request ⟨[0, 1, 2], [(3, ⟨0, 4, 1⟩)], [(4, ⟨3, 1, 3, "accepted"⟩)], 5⟩ 3 2 2 =
        .error .invalidArgument ∧
      update_request_status ⟨[0, 1, 2], [(3, ⟨0, 4, 1⟩)], [(4, ⟨3, 1, 3, "accepted"⟩)], 5⟩ 4
          "rejected" =
        .ok (⟨[0, 1, 2], [(3, ⟨0, 4, 4⟩)], [(4, ⟨3, 1, 3, "rejected"⟩)], 5⟩,
             ⟨3, 1, 3, "rejected"⟩)) := by
  refine ⟨?_, ?_, ?_, rfl, rfl, rfl, rfl, rfl⟩
  · intro s i req ride hreq hst hride hsa
    have hacc := acceptAdjust_do hst hride hsa
    have hupd := setStatus_ok (by decide) hreq hacc
    rw [hupd, relSkip_accepted]
    simp only [Except.map]
    unfold seatsAvailOf
    dsimp only
    rw [findById_updateById, if_pos rfl, hride]
    rfl
  · intro s i req ride ns hreq hst hns hride
    have hv : validStatuses.contains ns = true := by
      rcases hns with h | h <;> rw [h] <;> decide
    have hacc := @acceptAdjust_skip s req ns (Or.inl hst)
    have hupd := setStatus_ok hv hreq hacc
    rw [hupd]
    rw [releaseAdjust_do hst hns]
    simp only [Except.map]
    unfold seatsAvailOf
    dsimp only
    rw [findById_updateById, if_pos rfl, hride]
    rfl
  · intro s i req hreq hst
    have hacc := @acceptAdjust_skip s req "accepted" (Or.inl hst)
    have hupd := setStatus_ok (by decide) hreq hacc
    rw [hupd, relSkip_accepted]
    rfl

/-- Witness for C2 at a concrete accept: request for 3 of 4 seats is accepted,
leaving 1. -/
theorem c2_accept_release_semantics_witness :
    (update_request_status ⟨[0, 1], [(2, ⟨0, 4, 4⟩)], [(3, ⟨2, 1, 3, "pending"⟩)], 4⟩ 3
        "accepted").map (fun out => (seatsAvailOf out.1 2, out.2)) =
      .ok (some 1, ⟨2, 1, 3, "accepted"⟩) :=
  c2_accept_release_semantics.1 _ 3 ⟨2, 1, 3, "pending"⟩ ⟨0, 4, 4⟩ rfl (by decide) rfl
    (by decide)

/-- C4 is violated by the code: `RideIn` and `RideRequestIn` carry no range
constraints, so out-of-range creations succeed instead of failing
InvalidArgument: a ride with `seats_total = 9` (and even `0`), and a request
for 5 seats. -/
theorem c4_range_not_enforced :
    create_ride ⟨[0], [], [], 1⟩ 0 9 =
      .ok (⟨[0], [(1, ⟨0, 9, 9⟩)], [], 2⟩, 1) ∧
    create_ride ⟨[0], [], [], 1⟩ 0 0 =
      .ok (⟨[0], [(1, ⟨0, 0, 0⟩)], [], 2⟩, 1) ∧
    create_ride_request ⟨[0, 1], [(2, ⟨0, 9, 9⟩)], [], 3⟩ 2 1 5 =
      .ok (⟨[0, 1], [(2, ⟨0, 9, 9⟩)], [(3, ⟨2, 1, 5, "pending"⟩)], 4⟩, 3) :=
  ⟨rfl, rfl, rfl⟩

/-- C5: RequestSeats fails InvalidArgument exactly when `seats < 1` or
`seats > ride.seats_available` (given ride and passenger exist), NotFound when
the ride or the passenger is missing; SetStatus fails NotFound for a missing
request id (with a valid status) and InvalidArgument for any status outside
the allowed four, such as "bogus". -/
theorem c5_error_conditions :
    (∀ (s : Store) (rid pid : Nat) (seats : Int) (ride : Ride),
      findById s.rides rid = some ride → s.soldiers.contains pid = true →
      (create_ride_request s rid pid seats = .error .invalidArgument ↔
        (seats < 1 ∨ ride.seats_available < seats))) ∧
    (∀ (s : Store) (rid pid : Nat) (seats : Int),
      findById s.rides rid = none →
      create_ride_request s rid pid seats = .error .notFound) ∧
    (∀ (s : Store) (rid pid : Nat) (seats : Int) (ride : Ride),
      findById s.rides rid = some ride → s.soldiers.contains pid = false →
      create_ride_request s rid pid seats = .error .notFound) ∧
    (∀ (s : Store) (i : Nat) (ns : String),
      validStatuses.contains ns = true → findById s.requests i = none →
      update_request_status s i ns = .error .notFound) ∧
    (∀ (s : Store) (i : Nat) (ns : String),
      validStatuses.contains ns = false →
      update_request_status s i ns = .error .invalidArgument) ∧
    validStatuses.contains "bogus" = false := by
  refine ⟨?_, ?_, ?_, ?_, ?_, by decide⟩
  · intro s rid pid seats ride hr hp
    unfold create_ride_request
    rw [hr]
    dsimp only
    rw [if_pos hp]
    by_cases h1 : seats < 1
    · rw [if_pos h1]
      exact iff_of_true rfl (Or.inl h1)
    · rw [if_neg h1]
      by_cases h2 : ride.seats_available < seats
      · rw [if_pos h2]
        exact iff_of_true rfl (Or.inr h2)
      · rw [if_neg h2]
        constructor
        · intro hcon
          cases hcon
        · intro hcon
          rcases hcon with hc | hc
          · exact absurd hc h1
          · exact absurd hc h2
  · intro s rid pid seats hr
    unfold create_ride_request
    rw [hr]
  · intro s rid pid seats ride hr hp
    unfold create_ride_request
    rw [hr]
    dsimp only
    rw [hp, if_neg Bool.false_ne_true]
  · intro s i ns hv h
    exact setStatus_notFound hv h
  · intro s i ns h
    exact setStatus_invalid h

/-- Witness for C5: "bogus" is rejected, a missing request id gives NotFound,
and a request for 3 of 2 available seats gives InvalidArgument. -/
theorem c5_error_conditions_witness :
    update_request_status ⟨[], [], [], 0⟩ 0 "bogus" = .error .invalidArgument ∧
    update_request_status ⟨[], [], [], 0⟩ 5 "pending" = .error .notFound ∧
    create_ride_request ⟨[0], [(1, ⟨0, 2, 2⟩)], [], 2⟩ 1 0 3 = .error .invalidArgument :=
  ⟨c5_error_conditions.2.2.2.2.1 ⟨[], [], [], 0⟩ 0 "bogus" (by decide),
   c5_error_conditions.2.2.2.1 ⟨[], [], [], 0⟩ 5 "pending" (by decide) rfl,
   (c5_error_conditions.1 ⟨[0], [(1, ⟨0, 2, 2⟩)], [], 2⟩ 1 0 3 ⟨0, 2, 2⟩ rfl
     (by decide)).mpr (Or.inr (by decide))⟩

/-- C6: a successful RequestSeats modifies no ride: the resulting store keeps
the ride collection (and the soldier collection) untouched; only a new pending
request is appended. -/
theorem c6_request_preserves_rides :
    ∀ (s : Store) (rid pid : Nat) (seats : Int) (s1 : Store) (j : Nat),
      create_ride_request s rid pid seats = .ok (s1, j) →
      s1.rides = s.rides ∧ s1.soldiers = s.soldiers := by
  intro s rid pid seats s1 j h
  unfold create_ride_request at h
  cases hr : findById s.rides rid with
  | none =>
    rw [hr] at h
    cases h
  | some ride =>
    rw [hr] at h
    dsimp only at h
    by_cases hp : s.soldiers.contains pid = true
    swap
    · rw [if_neg hp] at h
      cases h
    · rw [if_pos hp] at h
      by_cases h1 : seats < 1
      · rw [if_pos h1] at h
        cases h
      · rw [if_neg h1] at h
        by_cases h2 : ride.seats_available < seats
        · rw [if_pos h2] at h
          cases h
        · rw [if_neg h2] at h
          injection h with h3
          rw [Prod.mk.injEq] at h3
          obtain ⟨h4, h5⟩ := h3
          rw [← h4]
          exact ⟨rfl, rfl⟩

/-- Witness for C6: creating a request against a ride with 4 free seats leaves
the ride and soldier collections equal to what they were. -/
theorem c6_request_preserves_rides_witness :
    (⟨[0, 1], [(2, ⟨0, 4, 4⟩)], [(3, ⟨2, 1, 2, "pending"⟩)], 4⟩ : Store).rides =
        (⟨[0, 1], [(2, ⟨0, 4, 4⟩)], [], 3⟩ : Store).rides ∧
      (⟨[0, 1], [(2, ⟨0, 4, 4⟩)], [(3, ⟨2, 1, 2, "pending"⟩)], 4⟩ : Store).soldiers =
        (⟨[0, 1], [(2, ⟨0, 4, 4⟩)], [], 3⟩ : Store).soldiers :=
  c6_request_preserves_rides ⟨[0, 1], [(2, ⟨0, 4, 4⟩)], [], 3⟩ 2 1 2
    ⟨[0, 1], [(2, ⟨0, 4, 4⟩)], [(3, ⟨2, 1, 2, "pending"⟩)], 4⟩ 3 rfl

/-- C10: SetStatus from accepted to pending succeeds, rewrites only the
request's status field, and leaves every ride — in particular the parent
ride's `seats_available` — untouched: the seats reserved at acceptance stay
deducted. -/
theorem c10_accepted_to_pending_leak :
    ∀ (s : Store) (i : Nat) (req : RideRequest),
      findById s.requests i = some req → req.status = "accepted" →
      update_request_status s i "pending" =
        .ok ({ s with
                requests := updateById s.requests i
                  (fun r => { r with status := "pending" }) },
             { req with status := "pending" }) ∧
      ∀ rid,
        seatsAvailOf { s with
            requests := updateById s.requests i
              (fun r => { r with status := "pending" }) } rid =
          seatsAvailOf s rid := by
  intro s i req hreq hst
  constructor
  · have hacc := @acceptAdjust_skip s req "pending"
      (Or.inr (by decide : ¬ ("pending" : String) = "accepted"))
    have hupd := setStatus_ok (by decide) hreq hacc
    rw [hupd, relSkip_pending]
  · intro rid
    rfl

/-- Witness for C10: a request for 3 seats in accepted state moved to pending;
the parent ride keeps `seats_available = 1`. -/
theorem c10_accepted_to_pending_leak_witness :
    update_request_status ⟨[0, 1], [(2, ⟨0, 4, 1⟩)], [(3, ⟨2, 1, 3, "accepted"⟩)], 4⟩ 3
        "pending" =
      .ok (⟨[0, 1], [(2, ⟨0, 4, 1⟩)], [(3, ⟨2, 1, 3, "pending"⟩)], 4⟩,
           ⟨2, 1, 3, "pending"⟩) ∧
    seatsAvailOf ⟨[0, 1], [(2, ⟨0, 4, 1⟩)], [(3, ⟨2, 1, 3, "pending"⟩)], 4⟩ 2 = some 1 :=
  ⟨(c10_accepted_to_pending_leak ⟨[0, 1], [(2, ⟨0, 4, 1⟩)], [(3, ⟨2, 1, 3, "accepted"⟩)], 4⟩
      3 ⟨2, 1, 3, "accepted"⟩ rfl rfl).1, by decide⟩

/-- `round` of a rational that is an integer is that integer. -/
theorem pyRound_intCast (n : Int) : pyRound ((n : Int) : Rat) = n := by
  simp only [pyRound, Rat.intCast_num, Rat.intCast_den, Int.fdiv_one]
  norm_num

/-- The §8 match-scorer scenario evaluates to exactly 20 before rounding:
5 (home area affinity) + 5 (base affinity) + 5 (time term at one hour away)
+ 2 (seats bonus at 4 seats) + 3 (free ride price term). -/
theorem score_c3_eq :
    score_ride ⟨"Haifa", "Tel Aviv"⟩ 0
      ⟨"North Haifa", "South Tel Aviv", some 3600, 4, 0⟩ = 20 := by
  have hb1 : (!("Haifa" : String).isEmpty && !("North Haifa" : String).isEmpty &&
      (lowerIn "Haifa" "North Haifa" || lowerIn "North Haifa" "Haifa")) = true := by
    decide
  have hb2 : (!("Tel Aviv" : String).isEmpty && !("South Tel Aviv" : String).isEmpty &&
      (lowerIn "Tel Aviv" "South Tel Aviv" || lowerIn "South Tel Aviv" "Tel Aviv")) = true := by
    decide
  have habs : ((((3600 : Int) - 0).natAbs : Int) : Rat) = ((3600 : Int) : Rat) := by
    norm_num
  simp only [score_ride, hb1, hb2, if_true]
  rw [habs]
  rw [min_def, min_def, min_def, max_def, max_def]
  norm_num

/-- Rounding 20 to two decimals gives 20. -/
theorem round2_twenty : round2 (20 : Rat) = 20 := by
  unfold round2
  have h1 : (20 : Rat) * 100 = ((2000 : Int) : Rat) := by norm_num
  rw [h1, pyRound_intCast]
  norm_num

/-- C3 as stated is false: for Soldier{home_area="Haifa", base_name="Tel
Aviv"} and Ride{from_area="North Haifa", to_area="South Tel Aviv",
departure_time=now+1h, seats_available=4, price_per_seat=0}, the score is
exactly 20.00, not at least 21 (nor at least 20.99, i.e. 21 minus any rounding
slack below 0.01): at delta = 1 hour the time term contributes 5, not 6. -/
theorem c3_counterexample :
    round2 (score_ride ⟨"Haifa", "Tel Aviv"⟩ 0
        ⟨"North Haifa", "South Tel Aviv", some 3600, 4, 0⟩) = 20 ∧
    ¬ ((21 : Rat) ≤ round2 (score_ride ⟨"Haifa", "Tel Aviv"⟩ 0
        ⟨"North Haifa", "South Tel Aviv", some 3600, 4, 0⟩)) ∧
    ¬ ((2099 / 100 : Rat) ≤ round2 (score_ride ⟨"Haifa", "Tel Aviv"⟩ 0
        ⟨"North Haifa", "South Tel Aviv", some 3600, 4, 0⟩)) := by
  rw [score_c3_eq, round2_twenty]
  refine ⟨rfl, by norm_num, by norm_num⟩

/-- C3 amended: the same soldier and ride score exactly
5 + 5 + 5 + 2 + 3 = 20.00 (the time-proximity term contributes
`6 - 1 = 5` at a departure one hour away, not 6). -/
theorem c3_scenario_score_amended :
    round2 (score_ride ⟨"Haifa", "Tel Aviv"⟩ 0
        ⟨"North Haifa", "South Tel Aviv", some 3600, 4, 0⟩) =
      5 + 5 + 5 + 2 + 3 := by
  rw [score_c3_eq, round2_twenty]
  norm_num

/-- The code's accumulator-style score equals the claim's five-term sum. -/
theorem score_ride_eq_spec (soldier : ScoreSoldier) (now : Int) (ride : ScoreRide) :
    score_ride soldier now ride = spec_score soldier now ride := by
  unfold score_ride spec_score
  cases hdt : ride.departure_time with
  | none => split_ifs <;> ring
  | some dt => split_ifs <;> ring

/-- C7: every candidate ride's score is the rounded sum of the five spec
terms: bidirectional case-insensitive containment bonuses for home/from and
base/to (5 each, only on non-empty fields), the time-proximity term (0 on
parse failure), the seats bonus `min(seats_available, 4) * 0.5`, and the price
term `max(0, 3 - min(price/10, 3))`, rounded to 2 decimals. -/
theorem c7_score_formula :
    ∀ (soldier : ScoreSoldier) (now : Int) (rides : List ScoreRide),
      scoredOf soldier now rides =
        rides.map (fun r => (r, round2 (spec_score soldier now r))) := by
  intro soldier now rides
  unfold scoredOf
  simp only [score_ride_eq_spec]

theorem scoreDesc_trans : ∀ (a b c : ScoreRide × Rat),
    scoreDesc a b → scoreDesc b c → scoreDesc a c := by
  intro a b c hab hbc
  simp only [scoreDesc, decide_eq_true_eq] at *
  exact le_trans hbc hab

theorem scoreDesc_total : ∀ (a b : ScoreRide × Rat),
    scoreDesc a b || scoreDesc b a := by
  intro a b
  simp only [scoreDesc, Bool.or_eq_true, decide_eq_true_eq]
  exact le_total b.2 a.2

/-- Stability of the descending sort: within one score value, the sorted list
keeps exactly the original order of the scored candidates. -/
theorem filter_mergeSort_score (l : List (ScoreRide × Rat)) (q : Rat) :
    (l.mergeSort scoreDesc).filter (fun x => x.2 == q) =
      l.filter (fun x => x.2 == q) := by
  have hmemq : ∀ x ∈ l.filter (fun x => x.2 == q), x.2 = q := by
    intro x hx
    have := List.of_mem_filter hx
    simpa using this
  have hpw : (l.filter (fun x => x.2 == q)).Pairwise
      (fun a b => scoreDesc a b = true) := by
    apply List.pairwise_of_forall_mem_list
    intro a ha b hb
    simp only [scoreDesc, decide_eq_true_eq]
    rw [hmemq a ha, hmemq b hb]
  have hsub : List.Sublist (l.filter (fun x => x.2 == q)) (l.mergeSort scoreDesc) :=
    List.sublist_mergeSort scoreDesc_trans scoreDesc_total hpw (List.filter_sublist l)
  have hsubf := hsub.filter (fun x => x.2 == q)
  simp only [List.filter_filter, Bool.and_self] at hsubf
  have hperm : List.Perm ((l.mergeSort scoreDesc).filter (fun x => x.2 == q))
      (l.filter (fun x => x.2 == q)) :=
    (List.mergeSort_perm l scoreDesc).filter (fun x => x.2 == q)
  exact (hsubf.eq_of_length hperm.length_eq.symm).symm

/-- C8: SuggestRides returns the scored candidates sorted descending by score
(a stable sort: ties keep the candidate fetch order), truncated to at most 50;
being a pure function of its inputs, the result is deterministic for a fixed
input set. -/
theorem c8_sorted_truncated :
    ∀ (soldier : ScoreSoldier) (now w : Int) (rides : List ScoreRide),
      suggest_rides soldier now w rides =
        ((scoredOf soldier now (fetchCandidates now w rides)).mergeSort
          scoreDesc).take 50 ∧
      (suggest_rides soldier now w rides).length ≤ 50 ∧
      List.Pairwise (fun a b => b.2 ≤ a.2) (suggest_rides soldier now w rides) ∧
      List.Perm ((scoredOf soldier now (fetchCandidates now w rides)).mergeSort scoreDesc)
        (scoredOf soldier now (fetchCandidates now w rides)) ∧
      ∀ q : Rat,
        ((scoredOf soldier now (fetchCandidates now w rides)).mergeSort
            scoreDesc).filter (fun x => x.2 == q) =
          (scoredOf soldier now (fetchCandidates now w rides)).filter
            (fun x => x.2 == q) := by
  intro soldier now w rides
  refine ⟨rfl, ?_, ?_, List.mergeSort_perm _ _, fun q => filter_mergeSort_score _ q⟩
  · unfold suggest_rides
    rw [List.length_take]
    exact min_le_left _ _
  · have hs := List.sorted_mergeSort scoreDesc_trans scoreDesc_total
      (scoredOf soldier now (fetchCandidates now w rides))
    have hst : ((scoredOf soldier now (fetchCandidates now w rides)).mergeSort
        scoreDesc).Pairwise (fun a b => b.2 ≤ a.2) := by
      refine hs.imp ?_
      intro a b hab
      simpa [scoreDesc] using hab
    exact List.Pairwise.sublist (List.take_sublist _ _) hst

/-- C9: the candidate window is clamped to [1, 168] hours, so SuggestRides
with window_hours = 0 equals SuggestRides with 1, and with 10000 equals 168,
for every soldier, current time and ride set. -/
theorem c9_window_clamp :
    (∀ (soldier : ScoreSoldier) (now : Int) (rides : List ScoreRide),
      suggest_rides soldier now 0 rides = suggest_rides soldier now 1 rides ∧
      suggest_rides soldier now 10000 rides = suggest_rides soldier now 168 rides) ∧
    (∀ w : Int, 1 ≤ clampWindow w ∧ clampWindow w ≤ 168) := by
  constructor
  · intro soldier now rides
    constructor
    · have h : clampWindow 0 = clampWindow 1 := by decide
      unfold suggest_rides fetchCandidates
      rw [h]
    · have h : clampWindow 10000 = clampWindow 168 := by decide
      unfold suggest_rides fetchCandidates
      rw [h]
  · intro w
    constructor
    · exact le_max_left 1 _
    · exact max_le (by norm_num) (min_le_right w 168)

end Carpool
